import Mathlib

/-!
Verification development for the TinyExpr C89 adaptation
(`src/tinyexpr.c`): tokenizer, recursive-descent parser, constant-folding
optimizer and tree-walking evaluator, shallowly embedded in Lean.

Modelling conventions:

* C `double` values are modelled by `TEVal`: either an exact rational
  (`num`) or the non-numeric value `nan`.  Every arithmetic operation is
  defined so that it agrees with IEEE double arithmetic whenever the
  operands and the exact result are representable without rounding (the
  only situations any theorem below evaluates); non-finite results
  (infinities) and results that would require rounding or transcendental
  functions are collapsed to `nan` and are not relied upon by any theorem.
* Allocation (`malloc` inside `new_expr`) is modelled by an oracle
  `alloc : Nat → Bool` consulted in program order with a counter; a
  `false` answer is an allocation failure (C returns NULL).
* The parser functions return `Except PErr (TE × St)`; `PErr.null`
  models every `return NULL;` of the C source (allocation failure and the
  error paths of `base` that set `ret = NULL`), and `PErr.nofuel` is a
  model artifact of the fuel parameter that makes the mutual recursion
  structurally terminating; it corresponds to no C behaviour and
  `te_compile` is always run with generous fuel.
* Pointers to variable storage (`const double *bound`) are modelled as
  abstract addresses `Nat` read through an environment `Nat → TEVal`
  supplied to the evaluator; closure context pointers are opaque `Nat`
  identifiers whose semantics is uninterpreted (no claim evaluates a
  closure).
-/

/-- Model of a C `double`: an exact rational, or the non-numeric value.
IEEE infinities and NaN are both mapped to `nan` (see the header note). -/
inductive TEVal : Type where
  | num (q : Rat)
  | nan
deriving DecidableEq, Repr

/-- `a + b` on doubles, exact-rational fragment. -/
def teAdd : TEVal → TEVal → TEVal
  | .num a, .num b => .num (a + b)
  | _, _ => .nan

/-- `a - b` on doubles, exact-rational fragment. -/
def teSub : TEVal → TEVal → TEVal
  | .num a, .num b => .num (a - b)
  | _, _ => .nan

/-- `a * b` on doubles, exact-rational fragment. -/
def teMul : TEVal → TEVal → TEVal
  | .num a, .num b => .num (a * b)
  | _, _ => .nan

/-- `a / b` on doubles; division by zero yields an IEEE infinity or NaN,
collapsed here to `nan`. -/
def teDiv : TEVal → TEVal → TEVal
  | .num a, .num b => if b = 0 then .nan else .num (a / b)
  | _, _ => .nan

/-- Truncation toward zero, as C's `fmod` uses. -/
def ratTrunc (q : Rat) : Int := if 0 ≤ q then ⌊q⌋ else ⌈q⌉

/-- C `fmod(a, b) = a - b * trunc(a / b)`; `fmod(a, 0)` is NaN. -/
def teFmod : TEVal → TEVal → TEVal
  | .num a, .num b => if b = 0 then .nan else .num (a - b * (ratTrunc (a / b) : Rat))
  | _, _ => .nan

/-- C `pow`: exact for integral exponents (with `pow(0, negative)` an
infinity, collapsed to `nan`); non-integral exponents give irrational
results in general and are collapsed to `nan`. -/
def tePow : TEVal → TEVal → TEVal
  | .num a, .num b =>
      if b.den = 1 then
        if a = 0 ∧ b.num < 0 then .nan else .num (a ^ b.num)
      else .nan
  | _, _ => .nan

/-- Unary negation (`negate` in the C source). -/
def teNeg : TEVal → TEVal
  | .num a => .num (-a)
  | .nan => .nan

/-- The `comma` callable: discards its first argument, returns the second. -/
def teComma (_ : TEVal) (b : TEVal) : TEVal := b

/-- C `fabs`. -/
def teAbs : TEVal → TEVal
  | .num a => .num |a|
  | .nan => .nan

/-- C `ceil`. -/
def teCeil : TEVal → TEVal
  | .num a => .num (⌈a⌉ : Int)
  | .nan => .nan

/-- C `floor`. -/
def teFloor : TEVal → TEVal
  | .num a => .num (⌊a⌋ : Int)
  | .nan => .nan

/-- Identities of the callables the program can attach to AST nodes: the
six infix operator callables, unary `negate`, `comma`, the builtin
registry's functions/constants, and `usr i` for an opaque caller-supplied
callable.  The parser compares function pointers (`s->function == add`,
`== sub`, `== pow`, ...), which this identity type makes decidable. -/
inductive Fn : Type where
  | add | sub | mul | divide | fmod | pow
  | negate | comma
  | fabs | acos | asin | atan | atan2 | ceil | cos | cosh
  | e | exp | fac | floor | log | log10 | ncr | npr
  | pi | sin | sinh | sqrt | tan | tanh
  | usr (id : Nat)
deriving DecidableEq, Repr

/-- Semantics of a callable applied to its evaluated arguments.
Transcendental/libm functions (`sin`, `exp`, ...), the platform-dependent
`fac`/`ncr`/`npr`, and opaque caller-supplied callables are modelled as
returning `nan`: no claim evaluates them.  The constants `pi` and `e`
return the exact value of the decimal literal in the C source (the C
double is the nearest representable; no claim evaluates them either).
An argument-count mismatch (impossible for parser-built trees) yields
`nan`. -/
def applyFn : Fn → List TEVal → TEVal
  | .add, [a, b] => teAdd a b
  | .sub, [a, b] => teSub a b
  | .mul, [a, b] => teMul a b
  | .divide, [a, b] => teDiv a b
  | .fmod, [a, b] => teFmod a b
  | .pow, [a, b] => tePow a b
  | .negate, [a] => teNeg a
  | .comma, [a, b] => teComma a b
  | .fabs, [a] => teAbs a
  | .ceil, [a] => teCeil a
  | .floor, [a] => teFloor a
  | .pi, [] => .num (3.14159265358979323846 : Rat)
  | .e, [] => .num (2.71828182845904523536 : Rat)
  | _, _ => .nan

/-- The binding of a registration entry (`te_variable`): a plain variable
(address of external storage), a function of some arity, or a closure
with a context pointer.  The `pur` flag is `TE_FLAG_PURE`. -/
inductive TeVarKind : Type where
  | var (addr : Nat)
  | func (arity : Nat) (pur : Bool) (f : Fn)
  | clo (arity : Nat) (pur : Bool) (f : Fn) (ctx : Nat)
deriving DecidableEq, Repr

/-- A registration entry: `te_variable` of the C source. -/
structure TeVar : Type where
  name : List Char
  kind : TeVarKind
deriving DecidableEq, Repr

/-- Shorthand for a pure builtin function entry of the registry. -/
def mkB (nm : String) (ar : Nat) (f : Fn) : TeVar :=
  ⟨nm.toList, .func ar true f⟩

/-- The builtin registry `functions[]` (24 entries, alphabetical; the
all-zero sentinel that only pads the C array is not part of the list).
Default build: `TE_NAT_LOG` undefined, so `"log"` binds `log10`. -/
def functions : List TeVar :=
  [ mkB "abs" 1 .fabs
  , mkB "acos" 1 .acos
  , mkB "asin" 1 .asin
  , mkB "atan" 1 .atan
  , mkB "atan2" 2 .atan2
  , mkB "ceil" 1 .ceil
  , mkB "cos" 1 .cos
  , mkB "cosh" 1 .cosh
  , mkB "e" 0 .e
  , mkB "exp" 1 .exp
  , mkB "fac" 1 .fac
  , mkB "floor" 1 .floor
  , mkB "ln" 1 .log
  , mkB "log" 1 .log10
  , mkB "log10" 1 .log10
  , mkB "ncr" 2 .ncr
  , mkB "npr" 2 .npr
  , mkB "pi" 0 .pi
  , mkB "pow" 2 .pow
  , mkB "sin" 1 .sin
  , mkB "sinh" 1 .sinh
  , mkB "sqrt" 1 .sqrt
  , mkB "tan" 1 .tan
  , mkB "tanh" 1 .tanh ]

/-- The NUL character. -/
def nulChar : Char := Char.ofNat 0

/-- `strncmp(q, f, q.length)` where `q` is the scanned identifier (an
in-source slice, hence not NUL-terminated) and `f` a NUL-terminated
registry name: compares character pairs as unsigned values, stopping at
the first difference or at a NUL in `f` (identifier characters are never
NUL, but the model keeps the NUL-stop of `strncmp` for faithfulness). -/
def cmpChars : List Char → List Char → Int
  | [], _ => 0
  | q :: _, [] => if q.toNat = 0 then 0 else (q.toNat : Int)
  | q :: qs, f :: fs =>
      if q = f then (if q.toNat = 0 then 0 else cmpChars qs fs)
      else (q.toNat : Int) - (f.toNat : Int)

/-- Character `f[n]` of a NUL-terminated string: NUL past the end. -/
def charAt (f : List Char) (n : Nat) : Int := ((f.getD n nulChar).toNat : Int)

/-- The comparison of `find_builtin`:
`c = strncmp(name, functions[i].name, len); if (!c) c = '\0' - functions[i].name[len];`. -/
def bsCmp (q f : List Char) : Int :=
  let c := cmpChars q f
  if c = 0 then 0 - charAt f q.length else c

/-- Default entry used for (unreachable) out-of-range table indexing. -/
def dfltVar : TeVar := ⟨[], .var 0⟩

/-- `functions[i]` for an `int` index. -/
def tblGet (i : Int) : TeVar := functions.getD i.toNat dfltVar

/-- The probe index `i = imin + (imax-imin)/2` of the binary-search loop
(the operands are nonnegative whenever the loop body runs, so C `int`
division agrees with this nonnegative division). -/
def midI (imin imax : Int) : Int := imin + (((imax - imin).toNat / 2 : Nat) : Int)

/-- The binary-search loop of `find_builtin`: `imin`/`imax` are the `int`
bounds (`while (imax >= imin)`).  The first argument is fuel making the
recursion structural; the width `imax - imin` strictly shrinks on every
iteration, so any fuel larger than the initial width is never exhausted
(`find_builtin` passes 25 for the width-23 initial interval). -/
def bsearch : Nat → List Char → Int → Int → Option TeVar
  | 0, _, _, _ => none
  | n + 1, q, imin, imax =>
      if imin ≤ imax then
        if bsCmp q (tblGet (midI imin imax)).name = 0 then some (tblGet (midI imin imax))
        else if 0 < bsCmp q (tblGet (midI imin imax)).name then
          bsearch n q (midI imin imax + 1) imax
        else bsearch n q imin (midI imin imax - 1)
      else none

/-- `find_builtin`: binary search over the sorted registry;
`imax = sizeof(functions)/sizeof(te_variable) - 2 = 23`. -/
def find_builtin (q : List Char) : Option TeVar := bsearch 25 q 0 23

/-- The per-entry test of `find_lookup`:
`strncmp(name, var->name, len) == 0 && var->name[len] == '\0'`. -/
def lookMatch (q fname : List Char) : Bool :=
  cmpChars q fname = 0 && fname.getD q.length nulChar = nulChar

/-- `find_lookup`: linear scan of the caller-supplied table, first match
wins (a NULL table is the empty list). -/
def find_lookup (tbl : List TeVar) (q : List Char) : Option TeVar :=
  match tbl with
  | [] => none
  | v :: vs => if lookMatch q v.name then some v else find_lookup vs q

/-- Identifier resolution of `next_token`:
`var = find_lookup(s, start, len); if (!var) var = find_builtin(start, len);`. -/
def resolveName (lookup : List TeVar) (q : List Char) : Option TeVar :=
  match find_lookup lookup q with
  | some v => some v
  | none => find_builtin q

/-- The classified tokens of `next_token` (the transient `TOK_NULL` never
escapes the do-while loop and is not represented; `TOK_INFIX` is `tokOp`).
A function/closure token carries the declared arity, the closure flag,
the `TE_FLAG_PURE` flag, the callable, and the closure context. -/
inductive Token : Type where
  | tokError
  | tokEnd
  | tokSep
  | tokOpen
  | tokClose
  | tokNumber (v : Rat)
  | tokVariable (addr : Nat)
  | tokOp (f : Fn)
  | tokFn (arity : Nat) (clo : Bool) (pur : Bool) (f : Fn) (ctx : Option Nat)
deriving DecidableEq, Repr

/-- Digit run to a natural number. -/
def digitsToNat (ds : List Char) : Nat :=
  ds.foldl (fun acc c => 10 * acc + (c.toNat - '0'.toNat)) 0

/-- Model of C89 `strtod` as called by the tokenizer (the current
character is a digit or `'.'`, so no leading whitespace or sign occurs):
consumes the longest prefix of the form `digits [. digits] [e|E [+|-]
digits]`, requiring at least one digit in the significand and at least
one digit after the exponent marker for the exponent part to be consumed.
If no conversion can be performed (e.g. a lone `'.'`), returns value `0`
having consumed nothing.  C89 `strtod` has no hex-float form.  Returns
the exact decimal value (the C double is the nearest representable;
every theorem below only evaluates exactly representable numbers) and
the number of characters consumed from the given suffix. -/
def readNumber (rest : List Char) : Rat × Nat :=
  let ip := rest.takeWhile Char.isDigit
  let rest1 := rest.drop ip.length
  let hasDot := rest1.headD nulChar = '.'
  let fp := if hasDot then (rest1.drop 1).takeWhile Char.isDigit else []
  if ip.isEmpty ∧ fp.isEmpty then (0, 0)
  else
    let sigLen := ip.length + (if hasDot then 1 + fp.length else 0)
    let mant : Rat := (digitsToNat (ip ++ fp) : Rat) / ((10 : Rat) ^ fp.length)
    let rest2 := rest.drop sigLen
    match rest2 with
    | c :: r2 =>
        if c = 'e' ∨ c = 'E' then
          let neg := r2.headD nulChar = '-'
          let sLen := if r2.headD nulChar = '-' ∨ r2.headD nulChar = '+' then 1 else 0
          let ed := (r2.drop sLen).takeWhile Char.isDigit
          if ed.isEmpty then (mant, sigLen)
          else
            let ex := digitsToNat ed
            let v := if neg then mant / ((10 : Rat) ^ ex) else mant * ((10 : Rat) ^ ex)
            (v, sigLen + 1 + sLen + ed.length)
        else (mant, sigLen)
    | [] => (mant, sigLen)

/-- Identifier-continuation test: `isalpha || isdigit || '_'`. -/
def isIdentChar (c : Char) : Bool := c.isAlpha || c.isDigit || c = '_'

/-- The token produced for a resolved registration entry (the
`switch(TYPE_MASK(var->type))` of `next_token`). -/
def tokenOfVar (v : TeVar) : Token :=
  match v.kind with
  | .var a => .tokVariable a
  | .func ar p f => .tokFn ar false p f none
  | .clo ar p f c => .tokFn ar true p f (some c)

/-- One call of `next_token` starting at `pos`: returns the classified
token and the new cursor.  The do-while loop of the C source re-iterates
exactly on whitespace, which is the recursive case here.  The recursion
is structural on the remaining suffix of the source, which at every call
equals `input.drop pos` for the absolute cursor `pos` carried
alongside. -/
def nextTokAux (lookup : List TeVar) : List Char → Nat → Token × Nat
  | [], pos => (.tokEnd, pos)
  | c :: cs, pos =>
      if c.isDigit ∨ c = '.' then
        let (v, consumed) := readNumber (c :: cs)
        (.tokNumber v, pos + consumed)
      else if c.isAlpha then
        let idt := (c :: cs).takeWhile isIdentChar
        let p' := pos + idt.length
        match resolveName lookup idt with
        | none => (.tokError, p')
        | some v => (tokenOfVar v, p')
      else if c = '+' then (.tokOp .add, pos + 1)
      else if c = '-' then (.tokOp .sub, pos + 1)
      else if c = '*' then (.tokOp .mul, pos + 1)
      else if c = '/' then (.tokOp .divide, pos + 1)
      else if c = '^' then (.tokOp .pow, pos + 1)
      else if c = '%' then (.tokOp .fmod, pos + 1)
      else if c = '(' then (.tokOpen, pos + 1)
      else if c = ')' then (.tokClose, pos + 1)
      else if c = ',' then (.tokSep, pos + 1)
      else if c = ' ' ∨ c = '\t' ∨ c = '\n' ∨ c = '\r' then
        nextTokAux lookup cs (pos + 1)
      else (.tokError, pos + 1)

/-- The parse/tokenize cursor (`struct state`): source text, cursor
position, most recent token, caller table, and the allocation oracle with
its program-order counter. -/
structure St : Type where
  input : List Char
  pos : Nat
  tok : Token
  lookup : List TeVar
  alloc : Nat → Bool
  acnt : Nat

/-- `next_token(s)`. -/
def nextTok (s : St) : St :=
  let (t, p) := nextTokAux s.lookup (s.input.drop s.pos) s.pos
  { s with tok := t, pos := p }

/-- Set the token state to `TOK_ERROR` (leaving the cursor in place). -/
def setErr (s : St) : St := { s with tok := .tokError }

/-- One `new_expr` allocation: consult the oracle, advance the counter. -/
def newExpr (s : St) : Bool × St := (s.alloc s.acnt, { s with acnt := s.acnt + 1 })

/-- The AST (`te_expr`): a constant leaf, a variable-reference leaf
(abstract address of the bound storage), or a call node with the closure
flag, the `TE_FLAG_PURE` flag, the callable, the closure context and the
owned children (the C node's arity is `args.length`).  The type-0 node
built by the error fallback of `base` (whose `value` field is set to NAN
and which never survives a successful compile) is modelled as
`const .nan`. -/
inductive TE : Type where
  | const (v : TEVal)
  | var (addr : Nat)
  | call (clo : Bool) (pur : Bool) (f : Fn) (ctx : Option Nat) (args : List TE)
deriving Repr

/-- Is this node a `Constant`? -/
def isConstB : TE → Bool
  | .const _ => true
  | _ => false

mutual
/-- `te_eval` on a non-NULL node: a constant yields its value, a variable
reads its bound storage from the environment `env` (the model of the
pointer dereference `*n->bound`), a call evaluates its children
left-to-right and applies the callable.  The closure context is passed to
the C callable but is opaque here (`applyFn` interprets no caller-supplied
callable). -/
def evalT (env : Nat → TEVal) : TE → TEVal
  | .const v => v
  | .var a => env a
  | .call _ _ f _ args => applyFn f (evalList env args)
termination_by structural t => t
/-- Left-to-right evaluation of the children of a call node. -/
def evalList (env : Nat → TEVal) : List TE → List TEVal
  | [] => []
  | t :: ts => evalT env t :: evalList env ts
termination_by structural l => l
end

/-- `te_eval(n)`: NULL yields NaN, otherwise evaluate the tree. -/
def te_eval (env : Nat → TEVal) : Option TE → TEVal
  | none => .nan
  | some t => evalT env t

mutual
/-- The constant-folding pass `optimize`: constants and variables are
returned unchanged; a call node flagged pure first optimizes each child
in order, then, if every child became a constant, is replaced by a
constant holding its evaluated value; a call node not flagged pure is
returned as is (its children are not visited).  The C pass mutates in
place; this is the same computation functionally. -/
def optimize (env : Nat → TEVal) : TE → TE
  | .const v => .const v
  | .var a => .var a
  | .call clo pur f ctx args =>
      if pur then
        let args2 := optimizeList env args
        if args2.all isConstB then
          .const (te_eval env (some (.call clo pur f ctx args2)))
        else .call clo pur f ctx args2
      else .call clo pur f ctx args
termination_by structural t => t
/-- Child-by-child recursion of `optimize`. -/
def optimizeList (env : Nat → TEVal) : List TE → List TE
  | [] => []
  | t :: ts => optimize env t :: optimizeList env ts
termination_by structural l => l
end

/-- Failure result of a parser production: `null` models every
`return NULL;` of the C parser (allocation failure, and the `base` error
paths that set `ret = NULL`); `nofuel` is the fuel artifact (see the
header note). -/
inductive PErr : Type where
  | null
  | nofuel
deriving DecidableEq, Repr

/-- Result of a parser production: a fully built subtree with the updated
cursor, or a failure. -/
abbrev PRes : Type := Except PErr (TE × St)

/-- A binary operator node as the chain loops build it:
`new_expr(TE_FUNCTION2 | TE_FLAG_PURE, params)` with the accumulated
subtree as the left child. -/
def mkBin (f : Fn) (a b : TE) : TE := .call false true f none [a, b]

/-- A unary pure node (`negate` wrapper of `power`). -/
def mkNeg (a : TE) : TE := .call false true .negate none [a]

mutual
/-- `list := expr ("," expr)*`. -/
def list : Nat → St → PRes
  | 0, _ => .error .nofuel
  | n + 1, s =>
      match expr n s with
      | .error err => .error err
      | .ok (t, s1) => listLoop n t s1
/-- The `while (s->type == TOK_SEP)` chain loop of `list`. -/
def listLoop : Nat → TE → St → PRes
  | 0, _, _ => .error .nofuel
  | n + 1, acc, s =>
      match s.tok with
      | .tokSep =>
          let s1 := nextTok s
          match expr n s1 with
          | .error err => .error err
          | .ok (t2, s2) =>
              match newExpr s2 with
              | (false, _) => .error .null
              | (true, s3) => listLoop n (mkBin .comma acc t2) s3
      | _ => .ok (acc, s)
/-- `expr := term (("+" | "-") term)*`. -/
def expr : Nat → St → PRes
  | 0, _ => .error .nofuel
  | n + 1, s =>
      match term n s with
      | .error err => .error err
      | .ok (t, s1) => exprLoop n t s1
/-- The add/sub chain loop of `expr`. -/
def exprLoop : Nat → TE → St → PRes
  | 0, _, _ => .error .nofuel
  | n + 1, acc, s =>
      match s.tok with
      | .tokOp f =>
          if f = .add ∨ f = .sub then
            let s1 := nextTok s
            match term n s1 with
            | .error err => .error err
            | .ok (t2, s2) =>
                match newExpr s2 with
                | (false, _) => .error .null
                | (true, s3) => exprLoop n (mkBin f acc t2) s3
          else .ok (acc, s)
      | _ => .ok (acc, s)
/-- `term := factor (("*" | "/" | "%") factor)*`. -/
def term : Nat → St → PRes
  | 0, _ => .error .nofuel
  | n + 1, s =>
      match factor n s with
      | .error err => .error err
      | .ok (t, s1) => termLoop n t s1
/-- The mul/divide/fmod chain loop of `term`. -/
def termLoop : Nat → TE → St → PRes
  | 0, _, _ => .error .nofuel
  | n + 1, acc, s =>
      match s.tok with
      | .tokOp f =>
          if f = .mul ∨ f = .divide ∨ f = .fmod then
            let s1 := nextTok s
            match factor n s1 with
            | .error err => .error err
            | .ok (t2, s2) =>
                match newExpr s2 with
                | (false, _) => .error .null
                | (true, s3) => termLoop n (mkBin f acc t2) s3
          else .ok (acc, s)
      | _ => .ok (acc, s)
/-- `factor := power ("^" power)*` — the default (left-associative)
build: `TE_POW_FROM_RIGHT` is not defined in the source. -/
def factor : Nat → St → PRes
  | 0, _ => .error .nofuel
  | n + 1, s =>
      match power n s with
      | .error err => .error err
      | .ok (t, s1) => factorLoop n t s1
/-- The pow chain loop of `factor`. -/
def factorLoop : Nat → TE → St → PRes
  | 0, _, _ => .error .nofuel
  | n + 1, acc, s =>
      match s.tok with
      | .tokOp f =>
          if f = .pow then
            let s1 := nextTok s
            match power n s1 with
            | .error err => .error err
            | .ok (t2, s2) =>
                match newExpr s2 with
                | (false, _) => .error .null
                | (true, s3) => factorLoop n (mkBin f acc t2) s3
          else .ok (acc, s)
      | _ => .ok (acc, s)
/-- `power := ("+" | "-")* base`: consume the run of unary signs, then
wrap the base in a single negate node iff the accumulated sign is `-1`. -/
def power : Nat → St → PRes
  | 0, _ => .error .nofuel
  | n + 1, s =>
      let (sg, s1) := signs n 1 s
      if sg = 1 then base n s1
      else
        match base n s1 with
        | .error err => .error err
        | .ok (b, s2) =>
            match newExpr s2 with
            | (false, _) => .error .null
            | (true, s3) => .ok (mkNeg b, s3)
/-- The sign-skipping loop of `power`:
`while (TOK_INFIX && (add || sub)) { if (sub) sign = -sign; next_token; }`. -/
def signs : Nat → Int → St → Int × St
  | 0, sg, s => (sg, s)
  | n + 1, sg, s =>
      match s.tok with
      | .tokOp f =>
          if f = .add then signs n sg (nextTok s)
          else if f = .sub then signs n (-sg) (nextTok s)
          else (sg, s)
      | _ => (sg, s)
/-- `base`: number, variable, function call, parenthesized list, or the
error fallback (a NaN node with the token state set to `TOK_ERROR`). -/
def base : Nat → St → PRes
  | 0, _ => .error .nofuel
  | n + 1, s =>
      match s.tok with
      | .tokNumber v =>
          match newExpr s with
          | (false, _) => .error .null
          | (true, s1) => .ok (.const (.num v), nextTok s1)
      | .tokVariable a =>
          match newExpr s with
          | (false, _) => .error .null
          | (true, s1) => .ok (.var a, nextTok s1)
      | .tokFn 0 clo pur f ctx =>
          match newExpr s with
          | (false, _) => .error .null
          | (true, s1) =>
              let node := TE.call clo pur f ctx []
              let s2 := nextTok s1
              if s2.tok = .tokOpen then
                let s3 := nextTok s2
                if s3.tok = .tokClose then .ok (node, nextTok s3)
                else .ok (node, setErr s3)
              else .ok (node, s2)
      | .tokFn 1 clo pur f ctx =>
          let s1 := nextTok s
          match power n s1 with
          | .error err => .error err
          | .ok (p, s2) =>
              match newExpr s2 with
              | (false, _) => .error .null
              | (true, s3) => .ok (.call clo pur f ctx [p], s3)
      | .tokFn ar clo pur f ctx =>
          let s1 := nextTok s
          if s1.tok = .tokOpen then
            match args n ar s1 with
            | .error err => .error err
            | .ok (as2, broke, s2) =>
                if broke ∧ s2.tok = .tokClose ∧ as2.length = ar then
                  let s3 := nextTok s2
                  match newExpr s3 with
                  | (false, _) => .error .null
                  | (true, s4) => .ok (.call clo pur f ctx as2, s4)
                else .error .null
          else .error .null
      | .tokOpen =>
          let s1 := nextTok s
          match list n s1 with
          | .error err => .error err
          | .ok (t, s2) =>
              if s2.tok = .tokClose then .ok (t, nextTok s2)
              else .ok (t, setErr s2)
      | _ =>
          match newExpr s with
          | (false, _) => .error .null
          | (true, s1) => .ok (.const .nan, setErr s1)
/-- The argument loop of `base` for declared arity at least 2: `rem` is
the number of loop iterations still permitted (`arity - i`); each
iteration consumes a token, parses an `expr`, and breaks when the next
token is not a separator.  Returns the arguments in order, whether the
loop ended by `break` (rather than by exhausting the count), and the
cursor. -/
def args : Nat → Nat → St → Except PErr (List TE × Bool × St)
  | 0, _, _ => .error .nofuel
  | n + 1, rem, s =>
      let s1 := nextTok s
      match expr n s1 with
      | .error err => .error err
      | .ok (t, s2) =>
          if s2.tok = .tokSep then
            match rem with
            | 0 => .ok ([t], false, s2)
            | 1 => .ok ([t], false, s2)
            | r + 2 =>
                match args n (r + 1) s2 with
                | .error err => .error err
                | .ok (ts, b, s3) => .ok (t :: ts, b, s3)
          else .ok ([t], true, s2)
end

/-- The environment the compiler passes to `te_eval` inside `optimize`.
`optimize` only evaluates a node once all its children are constants, so
the evaluation never reads a variable binding and the choice here is
irrelevant (the C code dereferences no pointer on that path either). -/
def dummyEnv : Nat → TEVal := fun _ => .nan

/-- Result of `te_compile`: the owned tree together with the error code
written through the out-parameter (`0` on success), a failure with its
error code, or the fuel artifact. -/
inductive CRes : Type where
  | ok (t : TE) (code : Int)
  | fail (code : Int)
  | nofuel
deriving Repr

/-- `te_compile(expression, variables, var_count, error)`: prime the
tokenizer, parse a `list`, and then: a NULL root reports `-1`; a parse
that did not consume the whole input reports the cursor offset
`s.next - s.start` with `0` remapped to `1`; otherwise optimize and
report `0`. -/
def te_compile (fuel : Nat) (input : List Char) (vars : List TeVar)
    (alloc : Nat → Bool) : CRes :=
  let s0 : St := ⟨input, 0, .tokError, vars, alloc, 0⟩
  let s1 := nextTok s0
  match list fuel s1 with
  | .error .null => .fail (-1)
  | .error .nofuel => .nofuel
  | .ok (root, s2) =>
      if s2.tok = .tokEnd then .ok (optimize dummyEnv root) 0
      else .fail (if (s2.pos : Int) = 0 then 1 else (s2.pos : Int))

/-- Fuel that is generous for every input length (each unit of nesting
or chain iteration consumes at most a handful of fuel units per consumed
character). -/
def stdFuel (input : List Char) : Nat := 8 * input.length + 64

/-- An allocation oracle under which every allocation succeeds. -/
def allocOk : Nat → Bool := fun _ => true

/-- `te_compile` on a string literal with all allocations succeeding. -/
def compileStr (str : String) (vars : List TeVar) : CRes :=
  te_compile (stdFuel str.toList) str.toList vars allocOk

/-- The raw parse tree of an input (the `list` production's result before
optimization), used to state structural facts about the parser. -/
def parseTree (str : String) (vars : List TeVar) : Option TE :=
  let input := str.toList
  let s0 : St := ⟨input, 0, .tokError, vars, allocOk, 0⟩
  match list (stdFuel input) (nextTok s0) with
  | .ok (t, _) => some t
  | .error _ => none

/-- Did compilation succeed? -/
def CRes.success : CRes → Bool
  | .ok _ _ => true
  | _ => false

/-- The error code written through the out-parameter (`none` for the
fuel artifact, which writes nothing). -/
def CRes.codeOf : CRes → Option Int
  | .ok _ c => some c
  | .fail c => some c
  | .nofuel => none

/-- The compiled tree, if compilation succeeded. -/
def CRes.treeOf : CRes → Option TE
  | .ok t _ => some t
  | _ => none

/-- `te_interp(expression, error)`: compile with no variables, evaluate,
free; NaN if compilation failed.  A tree compiled with an empty table
contains no variable node, so the evaluation environment is irrelevant
and `dummyEnv` is passed. -/
def te_interp (str : String) : TEVal :=
  match compileStr str [] with
  | .ok t _ => te_eval dummyEnv (some t)
  | _ => .nan

/-- A character list is NUL-free (always true of scanned identifiers and
of the registry names; in C these are bytes of strings, never NUL). -/
def nulFree (l : List Char) : Prop := ∀ c ∈ l, c.toNat ≠ 0

/-- The name of the `k`-th builtin registry entry. -/
def nameAt (k : Nat) : List Char := (functions.getD k dfltVar).name

instance (l : List Char) : Decidable (nulFree l) := List.decidableBAll _ l

unseal Rat.ofScientific Rat.mul Rat.inv Rat.add Rat.sub

theorem char_toNat_inj {a b : Char} (h : a.toNat = b.toNat) : a = b := by
  rw [← Char.ofNat_toNat a, ← Char.ofNat_toNat b, h]

theorem nulChar_toNat : nulChar.toNat = 0 := rfl

theorem bsCmp_nil (f : List Char) : bsCmp [] f = 0 - charAt f 0 := by
  simp [bsCmp, cmpChars]

theorem bsCmp_cons_eq (a : Char) (qs fs : List Char) (ha : a.toNat ≠ 0) :
    bsCmp (a :: qs) (a :: fs) = bsCmp qs fs := by
  unfold bsCmp
  simp only [cmpChars, if_pos rfl, if_neg ha, charAt, List.length_cons, List.getD_cons_succ]
  simp

theorem bsCmp_eq_zero_iff (q f : List Char) (hq : nulFree q) (hf : nulFree f) :
    bsCmp q f = 0 ↔ q = f := by
  induction q generalizing f with
  | nil =>
      rw [bsCmp_nil]
      cases f with
      | nil => simp [charAt, nulChar_toNat]
      | cons b fs =>
          have hb : b.toNat ≠ 0 := hf b (by simp)
          simp only [charAt, List.getD_cons_zero]
          constructor
          · intro h; exfalso; omega
          · intro h; exact absurd h (by simp)
  | cons a qs ih =>
      have ha : a.toNat ≠ 0 := hq a (by simp)
      cases f with
      | nil =>
          unfold bsCmp
          simp only [cmpChars, if_neg ha]
          constructor
          · intro h
            exfalso
            have : (a.toNat : Int) ≠ 0 := by exact_mod_cast ha
            split at h <;> omega
          · intro h; exact absurd h (by simp)
      | cons b fs =>
          by_cases hab : a = b
          · subst hab
            rw [bsCmp_cons_eq a qs fs ha]
            rw [ih fs (fun c hc => hq c (by simp [hc])) (fun c hc => hf c (by simp [hc]))]
            simp
          · have hne : a.toNat ≠ b.toNat := fun hcon => hab (char_toNat_inj hcon)
            unfold bsCmp
            simp only [cmpChars, if_neg hab]
            constructor
            · intro h
              split at h
              · omega
              · exfalso
                have : (a.toNat : Int) ≠ (b.toNat : Int) := by exact_mod_cast hne
                omega
            · intro h
              exact absurd (List.cons.injEq .. ▸ h).1 hab

theorem tblSorted : ∀ j, j < 24 → ∀ i, i < 24 →
    ((j < i → bsCmp (nameAt j) (nameAt i) < 0)
      ∧ (i < j → 0 < bsCmp (nameAt j) (nameAt i))) := by
  decide

theorem tblNulFree : ∀ k, k < 24 → nulFree (nameAt k) := by decide

theorem memTbl : ∀ k, k < 24 → functions.getD k dfltVar ∈ functions := by decide

theorem midI_bounds (imin imax : Int) (h : imin ≤ imax) :
    imin ≤ midI imin imax ∧ midI imin imax ≤ imax := by
  unfold midI; omega

theorem tblGet_name (i : Int) : (tblGet i).name = nameAt i.toNat := rfl

theorem bsearch_found (q : List Char) (hq : nulFree q) :
    ∀ n (imin imax : Int), (imax + 1 - imin).toNat ≤ n →
    ∀ j : Nat, j < 24 → nameAt j = q →
    0 ≤ imin → imax ≤ 23 → imin ≤ (j : Int) → (j : Int) ≤ imax →
    ∃ v, bsearch n q imin imax = some v ∧ v ∈ functions ∧ v.name = q := by
  intro n
  induction n with
  | zero =>
      intro imin imax hn j hj24 hname h0 h23 hlo hhi
      exfalso; omega
  | succ n ih =>
      intro imin imax hn j hj24 hname h0 h23 hlo hhi
      have hle : imin ≤ imax := le_trans hlo hhi
      have hib := midI_bounds imin imax hle
      rw [bsearch]
      rw [if_pos hle]
      have hiN : (midI imin imax).toNat < 24 := by omega
      have hiC : ((midI imin imax).toNat : Int) = midI imin imax := by omega
      by_cases hc0 : bsCmp q (tblGet (midI imin imax)).name = 0
      · rw [if_pos hc0]
        refine ⟨tblGet (midI imin imax), rfl, memTbl _ hiN, ?_⟩
        have := (bsCmp_eq_zero_iff q _ hq
          (by rw [tblGet_name]; exact tblNulFree _ hiN)).mp hc0
        exact this.symm
      · rw [if_neg hc0]
        by_cases hcpos : 0 < bsCmp q (tblGet (midI imin imax)).name
        · rw [if_pos hcpos]
          have hji : midI imin imax < (j : Int) := by
            by_contra hle2
            push_neg at hle2
            rcases lt_or_eq_of_le hle2 with hlt | heq
            · have hjlt : j < (midI imin imax).toNat := by omega
              have hs := (tblSorted j hj24 (midI imin imax).toNat hiN).1 hjlt
              rw [hname, ← tblGet_name] at hs
              omega
            · have : nameAt (midI imin imax).toNat = q := by
                rw [← hname]; congr 1; omega
              rw [← tblGet_name] at this
              have : bsCmp q (tblGet (midI imin imax)).name = 0 := by
                rw [this]
                exact (bsCmp_eq_zero_iff q q hq hq).mpr rfl
              exact hc0 this
          exact ih (midI imin imax + 1) imax (by omega) j hj24 hname (by omega) h23
            (by omega) hhi
        · rw [if_neg hcpos]
          have hji : (j : Int) < midI imin imax := by
            by_contra hle2
            push_neg at hle2
            rcases lt_or_eq_of_le hle2 with hlt | heq
            · have hjgt : (midI imin imax).toNat < j := by omega
              have hs := (tblSorted j hj24 (midI imin imax).toNat hiN).2 hjgt
              rw [hname, ← tblGet_name] at hs
              omega
            · have : nameAt (midI imin imax).toNat = q := by
                rw [← hname]; congr 1; omega
              rw [← tblGet_name] at this
              exact hc0 (by rw [this]; exact (bsCmp_eq_zero_iff q q hq hq).mpr rfl)
          exact ih imin (midI imin imax - 1) (by omega) j hj24 hname h0 (by omega)
            hlo (by omega)

theorem bsearch_none (q : List Char) (hq : nulFree q)
    (habs : ∀ k, k < 24 → nameAt k ≠ q) :
    ∀ n (imin imax : Int), 0 ≤ imin → imax ≤ 23 →
    bsearch n q imin imax = none := by
  intro n
  induction n with
  | zero =>
      intro imin imax h0 h23
      rfl
  | succ n ih =>
      intro imin imax h0 h23
      rw [bsearch]
      by_cases hle : imin ≤ imax
      · rw [if_pos hle]
        have hib := midI_bounds imin imax hle
        have hiN : (midI imin imax).toNat < 24 := by omega
        have hc0 : bsCmp q (tblGet (midI imin imax)).name ≠ 0 := by
          intro hcon
          have := (bsCmp_eq_zero_iff q _ hq
            (by rw [tblGet_name]; exact tblNulFree _ hiN)).mp hcon
          exact habs _ hiN this.symm
        rw [if_neg hc0]
        by_cases hcpos : 0 < bsCmp q (tblGet (midI imin imax)).name
        · rw [if_pos hcpos]
          exact ih (midI imin imax + 1) imax (by omega) h23
        · rw [if_neg hcpos]
          exact ih imin (midI imin imax - 1) h0 (by omega)
      · rw [if_neg hle]

theorem optimizeList_map (env : Nat → TEVal) (l : List TE) :
    optimizeList env l = l.map (optimize env) := by
  induction l with
  | nil => rfl
  | cons t ts ih => simp [optimizeList, ih]

theorem lookMatch_iff (q f : List Char) (hq : nulFree q) (hf : nulFree f) :
    lookMatch q f = true ↔ q = f := by
  have hbs := bsCmp_eq_zero_iff q f hq hf
  unfold bsCmp charAt at hbs
  unfold lookMatch
  by_cases hc : cmpChars q f = 0
  · rw [if_pos hc] at hbs
    constructor
    · intro h
      simp only [hc, Bool.true_and, Bool.and_eq_true, decide_eq_true_eq] at h
      apply hbs.mp
      rw [h.2, nulChar_toNat]
      rfl
    · intro h
      have h0 := hbs.mpr h
      have hnn : (f.getD q.length nulChar).toNat = nulChar.toNat := by
        rw [nulChar_toNat]; omega
      have hch := char_toNat_inj hnn
      have h1 : (decide (cmpChars q f = 0)) = true := by simp [hc]
      have h2 : (decide (f.getD q.length nulChar = nulChar)) = true := by
        simp only [decide_eq_true_eq]
        exact hch
      rw [h1, h2]
      rfl
  · rw [if_neg hc] at hbs
    constructor
    · intro h
      simp only [Bool.and_eq_true, decide_eq_true_eq] at h
      exact absurd h.1 hc
    · intro h
      exact absurd (hbs.mpr h) hc

theorem find_lookup_find? (q : List Char) (tbl : List TeVar) (hq : nulFree q)
    (htbl : ∀ v ∈ tbl, nulFree v.name) :
    find_lookup tbl q = tbl.find? (fun v => decide (v.name = q)) := by
  induction tbl with
  | nil => rfl
  | cons v vs ih =>
      have hv : nulFree v.name := htbl v (by simp)
      unfold find_lookup
      rw [List.find?_cons]
      by_cases hm : lookMatch q v.name = true
      · have : q = v.name := (lookMatch_iff q v.name hq hv).mp hm
        rw [if_pos hm]
        simp [this]
      · have : q ≠ v.name := fun hcon => hm ((lookMatch_iff q v.name hq hv).mpr hcon)
        rw [if_neg hm]
        have hd : (decide (v.name = q)) = false := by
          simp
          exact fun hcon => this hcon.symm
        rw [hd]
        exact ih (fun w hw => htbl w (by simp [hw]))

theorem signs_neg (n : Nat) : ∀ (sg : Int) (s : St),
    signs n (-sg) s = (-(signs n sg s).1, (signs n sg s).2) := by
  induction n with
  | zero => intro sg s; rfl
  | succ n ih =>
      intro sg s
      cases htok : s.tok with
      | tokOp f =>
          by_cases hadd : f = .add
          · simp [signs, htok, hadd, ih]
          · by_cases hsub : f = .sub
            · simp only [signs, htok, hadd, hsub, if_neg, if_pos]
              have h2 := ih (-sg) (nextTok s)
              have h1 := ih sg (nextTok s)
              simp [hadd, hsub, neg_neg] at h2 h1 ⊢
              rw [h1]
              simp
            · simp [signs, htok, hadd, hsub]
      | tokError => simp [signs, htok]
      | tokEnd => simp [signs, htok]
      | tokSep => simp [signs, htok]
      | tokOpen => simp [signs, htok]
      | tokClose => simp [signs, htok]
      | tokNumber v => simp [signs, htok]
      | tokVariable a => simp [signs, htok]
      | tokFn ar clo pur f ctx => simp [signs, htok]

/-- Claim C1, counterexample: the claim asserts that compiling a call to
a registered function of arity N at least 1 with a different number of
arguments fails, and in particular that `compile("sin(1,2)")` fails; on
the code, `compile("sin(1,2)")` succeeds (the unary function's
parenthesized argument is parsed as a full comma list), refuting the
claim at this explicit input. -/
theorem c1_counterexample : (compileStr "sin(1,2)" []).success = true := rfl

/-- Claim C1, amended: for registered functions of declared arity N at
least 2, a parenthesized argument list with a number of `expr` arguments
different from N makes compilation fail (each arity-2 builtin with one or
with three arguments fails); but for unary functions the parenthesized
argument is a single `power` operand, which may be a parenthesized comma
list, so `compile("sin(1,2)")` succeeds, parsing as `sin` applied to the
comma expression `(1,2)`. -/
theorem c1_amended :
    (compileStr "sin(1,2)" []).success = true
    ∧ parseTree "sin(1,2)" []
        = some (.call false true .sin none
            [.call false true .comma none [.const (.num 1), .const (.num 2)]])
    ∧ (compileStr "atan2(1)" []).success = false
    ∧ (compileStr "atan2(1,2,3)" []).success = false
    ∧ (compileStr "ncr(1)" []).success = false
    ∧ (compileStr "ncr(1,2,3)" []).success = false
    ∧ (compileStr "npr(1)" []).success = false
    ∧ (compileStr "npr(1,2,3)" []).success = false
    ∧ (compileStr "pow(1)" []).success = false
    ∧ (compileStr "pow(1,2,3)" []).success = false :=
  ⟨rfl, rfl, rfl, rfl, rfl, rfl, rfl, rfl, rfl, rfl⟩

/-- Claim C2 (code bug): the claim — and the adaptation's own header
comment, which promises no functional change from upstream TinyExpr —
reserve the error code `-1` for node-allocation failure, distinct from
every syntax-error report.  This adaptation, however, returns NULL from
`base` on a missing `(` or a wrong argument count for functions of arity
at least 2 (upstream returned a non-NULL node with `TOK_ERROR` set,
yielding a positional report), so those purely structural failures are
also reported as `-1`: the first three conjuncts evaluate the code at
such failing inputs with every allocation succeeding, and the last shows
a genuine allocation failure reporting the same `-1`. -/
theorem c2_sentinel_shared :
    (compileStr "atan2(1)" []).codeOf = some (-1)
    ∧ (compileStr "atan2 1" []).codeOf = some (-1)
    ∧ (compileStr "atan2(1,2,3)" []).codeOf = some (-1)
    ∧ (te_compile 200 "1".toList [] (fun _ => false)).codeOf = some (-1) :=
  ⟨rfl, rfl, rfl, rfl⟩

/-- Claim C3, counterexample: the claim asserts that on a structural
parse failure the reported position is the 1-based character offset where
the unexpected token began.  For `compile("foo")` (an unresolvable
identifier starting at the very first character, 1-based offset 1) the
code reports 3 — the cursor offset after the token was scanned — not 1. -/
theorem c3_counterexample :
    (compileStr "foo" []).codeOf = some 3 ∧ (3 : Int) ≠ 1 :=
  ⟨rfl, by decide⟩

/-- Claim C3, amended: on success the error out-parameter is written 0
(first conjunct, for every input, fuel, table and allocation oracle).  On
a parse failure detected after parsing returned a tree, the code reports
`s.next - s.start` — the cursor offset just past the unexpected token,
with 0 remapped to 1 — which equals the 1-based offset of the token's
first character only for single-character tokens (`")"` at offset 1
reports 1) and not for multi-character or end-of-input tokens:
`compile("2+")` reports 2, the offset of the end of input;
`compile("foo")` reports 3; `compile("1 23")` reports 4; `compile("")`
reports 1 by the remap.  Failures that return no tree (allocation
failure, and the arity-at-least-2 error paths of `base`) report `-1`. -/
theorem c3_amended :
    (∀ fuel input vars alloc t c,
        te_compile fuel input vars alloc = .ok t c → c = 0)
    ∧ (compileStr "2+" []).codeOf = some 2
    ∧ (compileStr "" []).codeOf = some 1
    ∧ (compileStr ")" []).codeOf = some 1
    ∧ (compileStr "foo" []).codeOf = some 3
    ∧ (compileStr "1 23" []).codeOf = some 4 := by
  refine ⟨?_, rfl, rfl, rfl, rfl, rfl⟩
  intro fuel input vars alloc t c h
  simp only [te_compile] at h
  rcases hl : list fuel (nextTok ⟨input, 0, .tokError, vars, alloc, 0⟩) with e | pr
  · rw [hl] at h
    cases e <;> exact absurd h (by simp)
  · rw [hl] at h
    obtain ⟨root, s2⟩ := pr
    dsimp only at h
    by_cases hend : s2.tok = .tokEnd
    · rw [if_pos hend] at h
      injection h with h1 h2
      exact h2.symm
    · rw [if_neg hend] at h
      exact absurd h (by simp)

/-- Witness for the universally quantified conjunct of `c3_amended`,
instantiated at the successful compilation of `"1"`. -/
theorem c3_amended_witness : (0 : Int) = 0 :=
  c3_amended.1 (stdFuel "1".toList) "1".toList [] allocOk (.const (.num 1)) 0 rfl

/-- Claim C4, counterexample: the claim asserts that after a function
token of arity N at least 1 an opening parenthesis is required, its
absence being a syntax error; on the code, `compile("sin 1")` — a unary
function with no parenthesis at all — compiles successfully, refuting the
claim. -/
theorem c4_counterexample : (compileStr "sin 1" []).success = true := rfl

/-- Claim C4, amended: a zero-arity function token may be followed by an
empty parenthesis pair or by none at all (`"pi"` and `"pi()"` both
succeed; a `(` without `)` is an error, reported positionally); a
function token of arity at least 2 requires an opening parenthesis, whose
absence makes compilation fail (through the NULL path of this
adaptation, reported as -1); but an arity-1 function token requires no parenthesis: its
argument is a full unary/`power` production, so `"sin 1"` and `"sin(1)"`
both compile. -/
theorem c4_amended :
    (compileStr "pi" []).success = true
    ∧ (compileStr "pi()" []).success = true
    ∧ (compileStr "pi(" []).codeOf = some 3
    ∧ (compileStr "atan2 1" []).codeOf = some (-1)
    ∧ (compileStr "atan2(1,2)" []).success = true
    ∧ (compileStr "sin 1" []).success = true
    ∧ (compileStr "sin(1)" []).success = true
    ∧ parseTree "sin 1" [] = some (.call false true .sin none [.const (.num 1)]) :=
  ⟨rfl, rfl, rfl, rfl, rfl, rfl, rfl, rfl⟩

/-- Claim C5: the optimizer leaves constants and variables unchanged; on
a call node flagged pure it first optimizes every child and replaces the
node by a constant holding its evaluated value exactly when all optimized
children are constants; a call node not flagged pure is returned with its
children untouched (not visited); and compiling `"1+2*3"` with no
variables yields the single node `Constant 7`. -/
theorem c5_optimizer :
    (∀ env v, optimize env (.const v) = .const v)
    ∧ (∀ env a, optimize env (.var a) = .var a)
    ∧ (∀ env clo f ctx argl,
        optimize env (.call clo true f ctx argl)
          = if (argl.map (optimize env)).all isConstB then
              .const (te_eval env (some (.call clo true f ctx (argl.map (optimize env)))))
            else .call clo true f ctx (argl.map (optimize env)))
    ∧ (∀ env clo f ctx argl,
        optimize env (.call clo false f ctx argl) = .call clo false f ctx argl)
    ∧ (compileStr "1+2*3" []).treeOf = some (.const (.num 7)) := by
  refine ⟨fun env v => rfl, fun env a => rfl, ?_, fun env clo f ctx argl => rfl, rfl⟩
  intro env clo f ctx argl
  simp [optimize, optimizeList_map]

/-- Claim C6: identifier resolution consults the caller-supplied table
before the builtin registry — a hit there is final, and the registry is
consulted only when the linear scan fails; the linear scan returns the
first entry whose name matches the identifier exactly; and concretely, a
caller-supplied variable named `"pi"` shadows the builtin `pi`: the
tokenizer yields its variable token and compilation yields its variable
node, while with no caller table `"pi"` resolves to the builtin. -/
theorem c6_shadowing :
    (∀ lookup q v, find_lookup lookup q = some v → resolveName lookup q = some v)
    ∧ (∀ lookup q, find_lookup lookup q = none → resolveName lookup q = find_builtin q)
    ∧ (∀ q tbl, nulFree q → (∀ v ∈ tbl, nulFree v.name) →
        find_lookup tbl q = tbl.find? (fun v => decide (v.name = q)))
    ∧ nextTokAux [⟨"pi".toList, .var 0⟩] "pi".toList 0 = (.tokVariable 0, 2)
    ∧ (compileStr "pi" [⟨"pi".toList, .var 0⟩]).treeOf = some (.var 0)
    ∧ (compileStr "pi" []).treeOf
        = some (.const (.num (3.14159265358979323846 : Rat))) := by
  refine ⟨?_, ?_, ?_, rfl, rfl, rfl⟩
  · intro lookup q v h
    simp [resolveName, h]
  · intro lookup q h
    simp [resolveName, h]
  · intro q tbl hq htbl
    exact find_lookup_find? q tbl hq htbl

/-- Witness for the quantified conjuncts of `c6_shadowing`: the first two
at the concrete shadowing table and the empty table, the third at the
builtin registry itself with the query `"sin"`. -/
theorem c6_shadowing_witness :
    resolveName [⟨"pi".toList, .var 0⟩] "pi".toList = some ⟨"pi".toList, .var 0⟩
    ∧ resolveName [] "pi".toList = find_builtin "pi".toList
    ∧ find_lookup functions "sin".toList
        = functions.find? (fun v => decide (v.name = "sin".toList)) :=
  ⟨c6_shadowing.1 [⟨"pi".toList, .var 0⟩] "pi".toList ⟨"pi".toList, .var 0⟩ rfl,
   c6_shadowing.2.1 [] "pi".toList rfl,
   c6_shadowing.2.2.1 "sin".toList functions (by decide) (by decide)⟩

/-- Claim C7: binary operator chains at a single precedence level are
built left-associatively.  The first conjunct is the general chain step:
whenever the add/sub chain loop of `expr` sees an additive operator and
parses the next `term`, it continues with a new binary node whose left
child is the whole accumulated subtree.  The remaining conjuncts exhibit
the left-leaning trees for three-operand chains at every level — comma
list, additive, multiplicative, and power in the default build — and the
resulting values: `te_interp "2-3-4" = -5` and
`te_interp "2^3^2" = (2^3)^2 = 64`. -/
theorem c7_left_assoc :
    (∀ n acc s f t2 s2 s3,
        s.tok = .tokOp f → (f = .add ∨ f = .sub) →
        term n (nextTok s) = .ok (t2, s2) →
        newExpr s2 = (true, s3) →
        exprLoop (n + 1) acc s = exprLoop n (mkBin f acc t2) s3)
    ∧ parseTree "2-3-4" []
        = some (mkBin .sub (mkBin .sub (.const (.num 2)) (.const (.num 3)))
            (.const (.num 4)))
    ∧ parseTree "1,2,3" []
        = some (mkBin .comma (mkBin .comma (.const (.num 1)) (.const (.num 2)))
            (.const (.num 3)))
    ∧ parseTree "2/3/4" []
        = some (mkBin .divide (mkBin .divide (.const (.num 2)) (.const (.num 3)))
            (.const (.num 4)))
    ∧ parseTree "2^3^2" []
        = some (mkBin .pow (mkBin .pow (.const (.num 2)) (.const (.num 3)))
            (.const (.num 2)))
    ∧ te_interp "2-3-4" = .num (-5)
    ∧ te_interp "2^3^2" = .num 64 := by
  refine ⟨?_, rfl, rfl, rfl, rfl, rfl, rfl⟩
  intro n acc s f t2 s2 s3 htok hor hterm hnew
  simp only [exprLoop, htok]
  rw [if_pos hor, hterm]
  dsimp only
  rw [hnew]

/-- Witness for the quantified conjunct of `c7_left_assoc`, instantiated
at a state whose current token is `-` with `"4"` remaining. -/
theorem c7_left_assoc_witness :
    exprLoop 21 (.const (.num 3)) ⟨"4".toList, 0, .tokOp .sub, [], allocOk, 0⟩
      = exprLoop 20 (mkBin .sub (.const (.num 3)) (.const (.num 4)))
          ⟨"4".toList, 1, .tokEnd, [], allocOk, 2⟩ :=
  c7_left_assoc.1 20 (.const (.num 3)) ⟨"4".toList, 0, .tokOp .sub, [], allocOk, 0⟩
    .sub (.const (.num 4)) ⟨"4".toList, 1, .tokEnd, [], allocOk, 1⟩
    ⟨"4".toList, 1, .tokEnd, [], allocOk, 2⟩ rfl (Or.inr rfl) rfl rfl

/-- Claim C8: in the unary-sign production `power`, a run of leading `+`
and `-` signs collapses to at most one negation wrapper.  The first
conjunct is the parity law of the sign-skipping loop (flipping the
accumulated sign negates the outcome and does not change the cursor), the
second that the collapsed sign is always `1` or `-1`; the structural
conjuncts show an odd number of `-` producing exactly one negate node, an
even number none, and `-sin(1)` parsing as the negation applied to the
whole call `sin(1)` (signs resolved before the function's argument). -/
theorem c8_unary_signs :
    (∀ n sg s, signs n (-sg) s = (-(signs n sg s).1, (signs n sg s).2))
    ∧ (∀ n s, (signs n 1 s).1 = 1 ∨ (signs n 1 s).1 = -1)
    ∧ parseTree "-1" [] = some (mkNeg (.const (.num 1)))
    ∧ parseTree "--1" [] = some (.const (.num 1))
    ∧ parseTree "---1" [] = some (mkNeg (.const (.num 1)))
    ∧ parseTree "+-+1" [] = some (mkNeg (.const (.num 1)))
    ∧ parseTree "-sin(1)" []
        = some (mkNeg (.call false true .sin none [.const (.num 1)])) := by
  refine ⟨fun n sg s => signs_neg n sg s, ?_, rfl, rfl, rfl, rfl, rfl⟩
  intro n
  induction n with
  | zero => intro s; left; rfl
  | succ n ih =>
      intro s
      cases htok : s.tok with
      | tokOp f =>
          by_cases hadd : f = .add
          · simp only [signs, htok, hadd]
            simpa using ih (nextTok s)
          · by_cases hsub : f = .sub
            · simp only [signs, htok, hadd, hsub]
              have hflip := signs_neg n 1 (nextTok s)
              simp only [if_neg, if_pos]
              rcases ih (nextTok s) with h | h
              · right
                simp [hadd, hsub, hflip, h]
              · left
                simp [hadd, hsub, hflip, h]
            · simp [signs, htok, hadd, hsub]
      | tokError => simp [signs, htok]
      | tokEnd => simp [signs, htok]
      | tokSep => simp [signs, htok]
      | tokOpen => simp [signs, htok]
      | tokClose => simp [signs, htok]
      | tokNumber v => simp [signs, htok]
      | tokVariable a => simp [signs, htok]
      | tokFn ar clo pur f ctx => simp [signs, htok]

/-- Claim C9: `find_builtin` — a binary search over the alphabetically
sorted builtin registry, with no side effects (it is a pure function of
its arguments) — returns an entry exactly when the registry contains an
entry whose name equals the queried characters exactly (exact length,
exact characters), and the returned entry is that registry entry. -/
theorem c9_find_builtin (q : List Char) (hq : nulFree q) :
    (∀ v, find_builtin q = some v → v ∈ functions ∧ v.name = q)
    ∧ ((∃ v ∈ functions, v.name = q) → ∃ v, find_builtin q = some v ∧ v.name = q) := by
  constructor
  · intro v hv
    by_cases hex : ∃ j : Nat, j < 24 ∧ nameAt j = q
    · obtain ⟨j, hj, hn⟩ := hex
      obtain ⟨v0, hb, hmem, hnm⟩ :=
        bsearch_found q hq 25 0 23 (by omega) j hj hn (by omega) (by omega)
          (by omega) (by omega)
      unfold find_builtin at hv
      rw [hb] at hv
      injection hv with hv'
      subst hv'
      exact ⟨hmem, hnm⟩
    · push_neg at hex
      have hnone := bsearch_none q hq (fun k hk => hex k hk) 25 0 23 (by omega) (by omega)
      unfold find_builtin at hv
      rw [hnone] at hv
      exact absurd hv (by simp)
  · rintro ⟨v, hvmem, hvname⟩
    obtain ⟨j, hj, hje⟩ := List.mem_iff_getElem.mp hvmem
    have hj24 : j < 24 := by
      have hlen : functions.length = 24 := rfl
      omega
    have hname : nameAt j = q := by
      unfold nameAt
      rw [List.getD_eq_getElem _ _ hj, hje, hvname]
    obtain ⟨v0, hb, _, hnm⟩ :=
      bsearch_found q hq 25 0 23 (by omega) j hj24 hname (by omega) (by omega)
        (by omega) (by omega)
    exact ⟨v0, hb, hnm⟩

/-- Witness for `c9_find_builtin` at the concrete query `"sin"`: the
entry it returns is the registry's `sin` entry. -/
theorem c9_find_builtin_witness :
    mkB "sin" 1 .sin ∈ functions ∧ (mkB "sin" 1 .sin).name = "sin".toList :=
  (c9_find_builtin "sin".toList (by decide)).1 (mkB "sin" 1 .sin) rfl

/-- Claim C10: evaluating an absent (NULL) tree is total and yields NaN,
for every environment of variable bindings. -/
theorem c10_eval_null : ∀ env, te_eval env none = .nan := fun _ => rfl
